import Mathlib

/-!
Shallow embedding of the scoring engine of `horse_racing_app.py`
(class `HorseRacingPredictor`).

Modelling conventions, fixed throughout:

* A Python `horse_data` dictionary is a record of `Option`-valued fields;
  a `none` field is a key absent from the dictionary, and
  `dict.get(key, default)` becomes `Option.getD`.
* Python numbers are exact: `int` is `ℤ`, `float` arithmetic is `ℚ`
  (the scoring pipeline is purely rational), and the `np.exp` based
  probability step lives in `ℝ` via `Real.exp`.
* `round(x, n)` is modelled as `round (10^n * x) / 10^n` with Mathlib's
  `round`.  Python rounds exact halves to even while `round` rounds them
  up; no quantity evaluated in any theorem below falls on an exact half,
  so the two agree on everything proved here.
* A raised Python exception (the `ZeroDivisionError` possible in
  `calculate_speed_score`, which propagates out of `predict_race`)
  is modelled by `Option`: `none` is a raised exception.
* `self.weights['key']` indexes a dict whose keys are all present; the
  literal dict is modelled as the partial map `weights` and the always
  successful indexing as `Option.getD _ 0`.
-/

namespace HorseRacing

/-- A horse record: the `horse_data` dictionary.  A `none` field models a
key that is absent from the dictionary. -/
structure HorseData where
  name : Option String := none
  beyer_speed_figure : Option ℤ := none
  recent_beyer_figures : Option (List ℤ) := none
  recent_finishes : Option (List ℤ) := none
  race_class : Option String := none
  horse_class : Option String := none
  jockey_win_percentage : Option ℚ := none
  trainer_win_percentage : Option ℚ := none
  jockey_trainer_combo_win_pct : Option ℚ := none
  post_position : Option ℤ := none
  field_size : Option ℤ := none
  race_distance : Option ℚ := none
  track_condition : Option String := none

/-- The `self.weights` dictionary of `HorseRacingPredictor.__init__`. -/
def weights : String → Option ℚ
  | "speed_figure" => some 0.25
  | "recent_form" => some 0.20
  | "class_level" => some 0.15
  | "jockey_skill" => some 0.12
  | "trainer_stats" => some 0.12
  | "post_position" => some 0.08
  | "track_condition" => some 0.05
  | "distance_fitness" => some 0.03
  | _ => none

/-- The `self.track_variants` dictionary. -/
def track_variants : String → Option ℚ
  | "fast" => some 1.0
  | "good" => some 1.02
  | "sloppy" => some 1.05
  | "muddy" => some 1.08
  | "turf_firm" => some 0.98
  | "turf_good" => some 1.0
  | _ => none

/-- The `self.post_position_weights` dictionary. -/
def post_position_weights : ℤ → Option ℚ
  | 1 => some 0.85
  | 2 => some 0.90
  | 3 => some 0.92
  | 4 => some 0.95
  | 5 => some 0.97
  | 6 => some 1.0
  | 7 => some 0.98
  | 8 => some 0.95
  | 9 => some 0.92
  | 10 => some 0.90
  | 11 => some 0.85
  | 12 => some 0.80
  | 13 => some 0.75
  | 14 => some 0.70
  | 15 => some 0.65
  | _ => none

/-- `HorseRacingPredictor.calculate_speed_score`.  Negative Python list
indices `recent_speeds[-1]` and `recent_speeds[-3]` are translated using
`List.getD` at `length - 1` and `length - 3` (both indices are in range
in the branch where they are used, so the `getD` default `0` is dead).
`none` models the `ZeroDivisionError` raised when `recent_speeds[-3] == 0`. -/
def calculate_speed_score (horse_data : HorseData) : Option ℚ :=
  let base_speed : ℤ := horse_data.beyer_speed_figure.getD 70
  let track_adj : ℚ := (track_variants (horse_data.track_condition.getD "fast")).getD 1.0
  let distance : ℚ := horse_data.race_distance.getD 6.0
  let distance_factor : ℚ := if distance ≤ 6.5 then 1.0 else 0.95
  let recent_speeds : List ℤ := horse_data.recent_beyer_figures.getD [base_speed]
  if 3 ≤ recent_speeds.length then
    let last : ℤ := recent_speeds.getD (recent_speeds.length - 1) 0
    let third_from_last : ℤ := recent_speeds.getD (recent_speeds.length - 3) 0
    if third_from_last = 0 then none
    else
      let trend : ℚ := ((last : ℚ) - (third_from_last : ℚ)) / (third_from_last : ℚ)
      let trend_factor : ℚ := 1.0 + trend * 0.5
      some (min ((base_speed : ℚ) * track_adj * distance_factor * trend_factor) 120)
  else
    some (min ((base_speed : ℚ) * track_adj * distance_factor * 1.0) 120)

/-- `HorseRacingPredictor.calculate_form_score`.  `enumerate(reversed(l))`
is `l.reverse.enum`. -/
def calculate_form_score (horse_data : HorseData) : ℚ :=
  let recent_finishes : List ℤ := horse_data.recent_finishes.getD [5, 5, 5]
  let total_races := recent_finishes.length
  if total_races = 0 then 0.5
  else
    let items := recent_finishes.reverse.enum
    let weighted_sum : ℚ :=
      (items.map fun p => max 0 ((10 - (p.2 : ℚ)) / 10) * (((p.1 : ℚ) + 1) / (total_races : ℚ))).sum
    let total_weight : ℚ :=
      (items.map fun p => ((p.1 : ℚ) + 1) / (total_races : ℚ)).sum
    if 0 < total_weight then weighted_sum / total_weight else 0.5

/-- The `class_hierarchy` dictionary of `calculate_class_score`. -/
def class_hierarchy : String → Option ℕ
  | "maiden" => some 1
  | "claiming" => some 2
  | "allowance" => some 3
  | "stakes" => some 4
  | "graded_stakes" => some 5
  | "grade_1" => some 6
  | _ => none

/-- `HorseRacingPredictor.calculate_class_score`. -/
def calculate_class_score (horse_data : HorseData) : ℚ :=
  let current_class := horse_data.race_class.getD "claiming"
  let horse_cls := horse_data.horse_class.getD "claiming"
  let race_level := (class_hierarchy current_class).getD 2
  let horse_level := (class_hierarchy horse_cls).getD 2
  if race_level < horse_level then 1.2
  else if horse_level = race_level then 1.0
  else 0.8

/-- `HorseRacingPredictor.calculate_connection_score`, returning the pair
`(jockey, trainer)`. -/
def calculate_connection_score (horse_data : HorseData) : ℚ × ℚ :=
  let jockey_win_pct : ℚ := horse_data.jockey_win_percentage.getD 0.10
  let trainer_win_pct : ℚ := horse_data.trainer_win_percentage.getD 0.12
  let jockey_score := min (jockey_win_pct / 0.25) 1.0
  let trainer_score := min (trainer_win_pct / 0.25) 1.0
  let combo_success : ℚ := horse_data.jockey_trainer_combo_win_pct.getD 0.10
  let combo_bonus := min (combo_success / 0.30) 0.2
  (jockey_score + combo_bonus * 0.5, trainer_score + combo_bonus * 0.5)

/-- The `large_field_weights` dict comprehension
`{i: max(0.5, 1.0 - (i-6)*0.05) for i in range(1, 21)}` of
`calculate_post_position_score`, as a partial map on its key set `1..20`. -/
def large_field_weights (i : ℤ) : Option ℚ :=
  if 1 ≤ i ∧ i ≤ 20 then some (max 0.5 (1.0 - ((i : ℚ) - 6) * 0.05)) else none

/-- `HorseRacingPredictor.calculate_post_position_score`. -/
def calculate_post_position_score (horse_data : HorseData) : ℚ :=
  let post : ℤ := horse_data.post_position.getD 5
  let field_size : ℤ := horse_data.field_size.getD 10
  if field_size ≤ 6 then 1.0
  else if field_size ≤ 10 then (post_position_weights post).getD 0.90
  else (large_field_weights post).getD 0.60

/-- The weighted sum computed by `calculate_overall_score` once the speed
sub-score is available (the only sub-score whose computation can raise). -/
def overall_from_speed (horse_data : HorseData) (speed_score : ℚ) : ℚ :=
  let form_score := calculate_form_score horse_data
  let class_score := calculate_class_score horse_data
  let jockey_score := (calculate_connection_score horse_data).1
  let trainer_score := (calculate_connection_score horse_data).2
  let post_score := calculate_post_position_score horse_data
  speed_score * (weights "speed_figure").getD 0 +
    form_score * 100 * (weights "recent_form").getD 0 +
    class_score * 100 * (weights "class_level").getD 0 +
    jockey_score * 100 * (weights "jockey_skill").getD 0 +
    trainer_score * 100 * (weights "trainer_stats").getD 0 +
    post_score * 100 * (weights "post_position").getD 0

/-- `HorseRacingPredictor.calculate_overall_score`; `none` is the
`ZeroDivisionError` propagating out of `calculate_speed_score`. -/
def calculate_overall_score (horse_data : HorseData) : Option ℚ :=
  (calculate_speed_score horse_data).map (overall_from_speed horse_data)

/-- Python `round(x, 1)` on the exact rational value. -/
def round1 (x : ℚ) : ℚ := ((round (10 * x) : ℤ) : ℚ) / 10

/-- Python `round(x, 2)` on the exact rational value. -/
def round2 (x : ℚ) : ℚ := ((round (100 * x) : ℤ) : ℚ) / 100

/-- Python `round(x, 3)` on the exact rational value. -/
def round3 (x : ℚ) : ℚ := ((round (1000 * x) : ℤ) : ℚ) / 1000

/-- Python `round(x, 1)` on a real value (used after the `np.exp` step). -/
noncomputable def round1R (x : ℝ) : ℝ := ((round (10 * x) : ℤ) : ℝ) / 10

/-- One row of the `results` DataFrame built by `predict_race` (its columns,
in order). -/
structure PredictionResult where
  Horse : String
  Score : ℚ
  Win_Probability : ℝ
  Beyer_Figure : ℚ
  Form_Score : ℚ
  Class_Score : ℚ
  Jockey_Score : ℚ
  Trainer_Score : ℚ
  Post_Advantage : ℚ

/-- Runs an exception-raising computation over a list, stopping at the first
raised exception — the semantics of a Python `for` loop whose body may raise. -/
def option_traverse (f : α → Option β) : List α → Option (List β)
  | [] => some []
  | a :: l => (f a).bind fun b => (option_traverse f l).map fun bl => b :: bl

/-- The softmax value `exp(score/10) / Σ exp(s/10)` over a list of scores. -/
noncomputable def softmax_prob (all_scores : List ℚ) (score : ℚ) : ℝ :=
  Real.exp ((score : ℝ) / 10) / ((all_scores.map fun s : ℚ => Real.exp ((s : ℝ) / 10)).sum)

/-- `HorseRacingPredictor.score_to_probability`.  It recomputes
`calculate_overall_score` for every horse, so it raises (is `none`) as soon
as any horse's speed computation raises. -/
noncomputable def score_to_probability (score : ℚ) (all_horses : List HorseData) : Option ℝ :=
  (option_traverse calculate_overall_score all_horses).map fun all_scores =>
    softmax_prob all_scores score

/-- The body of the `for horse in horses_data` loop of `predict_race`:
the row appended to `results` for one horse, `none` if the iteration raises.
The Python body recomputes each sub-score for the display columns; the
recomputations are pure, so they are written once here.  In particular
`round(self.calculate_speed_score(horse), 1)` is `round1 speed` for the
already extracted `speed`. -/
noncomputable def predict_result (horses_data : List HorseData) (horse : HorseData) :
    Option PredictionResult :=
  (calculate_speed_score horse).bind fun speed =>
    (score_to_probability (overall_from_speed horse speed) horses_data).map fun probability =>
      { Horse := horse.name.getD "Unknown"
        Score := round2 (overall_from_speed horse speed)
        Win_Probability := round1R (probability * 100)
        Beyer_Figure := round1 speed
        Form_Score := round3 (calculate_form_score horse)
        Class_Score := round3 (calculate_class_score horse)
        Jockey_Score := round3 (calculate_connection_score horse).1
        Trainer_Score := round3 (calculate_connection_score horse).2
        Post_Advantage := round3 (calculate_post_position_score horse) }

/-- `results_df.sort_values('Score', ascending=False)`.  pandas' default
`kind='quicksort'` gives no guarantee on the relative order of rows with
equal `Score`; the model fixes one admissible descending order (a stable
insertion sort).  Only order-insensitive facts (membership, length, sums)
are derived from this choice. -/
def sort_by_score_desc (results : List PredictionResult) : List PredictionResult :=
  List.insertionSort (fun a b => b.Score ≤ a.Score) results

open Classical in
/-- The re-normalization step of `predict_race`: divide the rounded
percentage column by its total and round again, skipped when the total is
not positive. -/
noncomputable def renormalize (sorted : List PredictionResult) : List PredictionResult :=
  let total_prob : ℝ := (sorted.map fun r => r.Win_Probability).sum
  if 0 < total_prob then
    sorted.map fun r =>
      { r with Win_Probability := round1R (r.Win_Probability / total_prob * 100) }
  else sorted

/-- `HorseRacingPredictor.predict_race`.  (For the empty list pandas would
raise a `KeyError` on the missing `Score` column; every claim about
`predict_race` concerns at least two horses, where the model is exact.) -/
noncomputable def predict_race (horses_data : List HorseData) :
    Option (List PredictionResult) :=
  (option_traverse (predict_result horses_data) horses_data).map fun results =>
    renormalize (sort_by_score_desc results)

/-- The horse record with every field filled by the default that the
engine's `dict.get` calls substitute for a missing key. -/
def fill_defaults (h : HorseData) : HorseData where
  name := some (h.name.getD "Unknown")
  beyer_speed_figure := some (h.beyer_speed_figure.getD 70)
  recent_beyer_figures := some (h.recent_beyer_figures.getD [h.beyer_speed_figure.getD 70])
  recent_finishes := some (h.recent_finishes.getD [5, 5, 5])
  race_class := some (h.race_class.getD "claiming")
  horse_class := some (h.horse_class.getD "claiming")
  jockey_win_percentage := some (h.jockey_win_percentage.getD 0.10)
  trainer_win_percentage := some (h.trainer_win_percentage.getD 0.12)
  jockey_trainer_combo_win_pct := some (h.jockey_trainer_combo_win_pct.getD 0.10)
  post_position := some (h.post_position.getD 5)
  field_size := some (h.field_size.getD 10)
  race_distance := some (h.race_distance.getD 6.0)
  track_condition := some (h.track_condition.getD "fast")

/-- The empty dictionary: a horse record with every field missing. -/
def emptyHorse : HorseData := {}

end HorseRacing

namespace HorseRacing

/-!  Concrete horse records used as inputs of witnesses and counterexamples. -/

/-- A horse record that the UI can produce (all widget bounds respected)
whose speed trend factor is negative: base figure 50, recent figures
falling from 10 to -15. -/
def negTrendHorse : HorseData :=
  { beyer_speed_figure := some 50, recent_beyer_figures := some [10, 0, -15] }

/-- A horse record whose third-from-last recent speed figure is 0. -/
def zeroDenomHorse : HorseData := { recent_beyer_figures := some [0, 80, 80] }

/-- A horse record with a negative recent finish entry. -/
def negFinishHorse : HorseData := { recent_finishes := some [-1] }

/-- A horse record drawn into post 1 of an 11-horse field. -/
def widePostHorse : HorseData := { post_position := some 1, field_size := some 11 }

/-- Evaluation of the speed score on the empty record: every lookup falls
back to its default and the result is the default base figure 70. -/
lemma speed_emptyHorse : calculate_speed_score emptyHorse = some 70 := by
  norm_num [calculate_speed_score, emptyHorse, track_variants]

/-- Evaluation of the composite score on the empty record. -/
lemma overall_emptyHorse : calculate_overall_score emptyHorse = some (3161 / 50) := by
  norm_num [calculate_overall_score, calculate_speed_score, overall_from_speed,
    calculate_form_score, calculate_class_score, calculate_connection_score,
    calculate_post_position_score, post_position_weights, emptyHorse, track_variants,
    class_hierarchy, weights, List.enum]

/-- C1: for every horse record on which the speed sub-score evaluates,
`calculate_overall_score` returns exactly
`speed*0.25 + form*100*0.20 + class*100*0.15 + jockey*100*0.12 +
trainer*100*0.12 + post*100*0.08` over the sub-score values of that record;
the declared `track_condition` (0.05) and `distance_fitness` (0.03) weight
entries contribute nothing. -/
theorem overall_score_is_weighted_sum (h : HorseData) (s : ℚ)
    (hs : calculate_speed_score h = some s) :
    calculate_overall_score h =
      some (s * 0.25 + calculate_form_score h * 100 * 0.20 +
        calculate_class_score h * 100 * 0.15 +
        (calculate_connection_score h).1 * 100 * 0.12 +
        (calculate_connection_score h).2 * 100 * 0.12 +
        calculate_post_position_score h * 100 * 0.08) := by
  simp only [calculate_overall_score, hs, Option.map_some', overall_from_speed, weights,
    Option.getD_some]

/-- Witness for C1: the weighted-sum form evaluated at the empty record. -/
theorem overall_score_is_weighted_sum_witness :
    calculate_speed_score emptyHorse = some 70 ∧
    calculate_overall_score emptyHorse =
      some ((70 : ℚ) * 0.25 + calculate_form_score emptyHorse * 100 * 0.20 +
        calculate_class_score emptyHorse * 100 * 0.15 +
        (calculate_connection_score emptyHorse).1 * 100 * 0.12 +
        (calculate_connection_score emptyHorse).2 * 100 * 0.12 +
        calculate_post_position_score emptyHorse * 100 * 0.08) :=
  ⟨speed_emptyHorse, overall_score_is_weighted_sum emptyHorse 70 speed_emptyHorse⟩

/-- C4 counterexample: on a record with declining recent figures the speed
score is negative (`-25/2`), so it is not non-negative as claimed. -/
theorem speed_score_negative_counterexample :
    calculate_speed_score negTrendHorse = some (-25 / 2) ∧ ¬ (0 : ℚ) ≤ -25 / 2 := by
  refine ⟨?_, by norm_num⟩
  norm_num [calculate_speed_score, negTrendHorse, track_variants]

/-- C4 (amended): whenever `calculate_speed_score` returns a value at all,
that value is at most 120 (no lower bound holds: the trend factor and the
base figure may be negative). -/
theorem speed_score_le_120 (h : HorseData) (v : ℚ)
    (hv : calculate_speed_score h = some v) : v ≤ 120 := by
  simp only [calculate_speed_score] at hv
  split at hv
  · split at hv
    · cases hv
    · rw [Option.some_inj] at hv
      exact hv ▸ min_le_right _ _
  · rw [Option.some_inj] at hv
    exact hv ▸ min_le_right _ _

/-- Witness for C4 at the empty record. -/
theorem speed_score_le_120_witness :
    calculate_speed_score emptyHorse = some 70 ∧ (70 : ℚ) ≤ 120 :=
  ⟨speed_emptyHorse, speed_score_le_120 emptyHorse 70 speed_emptyHorse⟩

end HorseRacing

namespace HorseRacing

/-- The second component of an `enum` entry is an element of the list. -/
lemma snd_mem_of_mem_enum {α} {l : List α} {p : ℕ × α} (hp : p ∈ l.enum) : p.2 ∈ l := by
  rw [List.mem_enum_iff_getElem?] at hp
  exact List.getElem?_mem hp

/-- The weighted average formed in `calculate_form_score` lies between 0 and
its total weight whenever every finish in the list is non-negative. -/
lemma form_sums_bounds (l : List ℤ) (n : ℕ) (hf : ∀ f ∈ l, (0 : ℤ) ≤ f) :
    0 ≤ (l.enum.map fun p =>
        max 0 ((10 - (p.2 : ℚ)) / 10) * (((p.1 : ℚ) + 1) / (n : ℚ))).sum ∧
    (l.enum.map fun p =>
        max 0 ((10 - (p.2 : ℚ)) / 10) * (((p.1 : ℚ) + 1) / (n : ℚ))).sum ≤
      (l.enum.map fun p => ((p.1 : ℚ) + 1) / (n : ℚ)).sum := by
  constructor
  · apply List.sum_nonneg
    intro x hx
    obtain ⟨p, hp, rfl⟩ := List.mem_map.mp hx
    apply mul_nonneg (le_max_left 0 _)
    positivity
  · apply List.sum_le_sum
    intro p hp
    have hps : (0 : ℤ) ≤ p.2 := hf p.2 (snd_mem_of_mem_enum hp)
    have hw : (0 : ℚ) ≤ ((p.1 : ℚ) + 1) / (n : ℚ) := by positivity
    apply mul_le_of_le_one_left hw
    apply max_le (by norm_num)
    rw [div_le_one (by norm_num : (0:ℚ) < 10)]
    have : (0 : ℚ) ≤ (p.2 : ℚ) := by exact_mod_cast hps
    linarith

/-- C5 (amended): `calculate_form_score` is `0.5` on an empty effective
finish list, and lies in `[0, 1]` whenever every entry of the effective
finish list is non-negative (a negative finish can push it above 1). -/
theorem form_score_bounds (h : HorseData)
    (hf : ∀ f ∈ h.recent_finishes.getD [5, 5, 5], (0 : ℤ) ≤ f) :
    (h.recent_finishes.getD [5, 5, 5] = [] → calculate_form_score h = 0.5) ∧
    0 ≤ calculate_form_score h ∧ calculate_form_score h ≤ 1 := by
  simp only [calculate_form_score]
  set l := h.recent_finishes.getD [5, 5, 5] with hl
  have hrev : ∀ f ∈ l.reverse, (0 : ℤ) ≤ f := fun f hfm => hf f (List.mem_reverse.mp hfm)
  obtain ⟨hws, hwt⟩ := form_sums_bounds l.reverse l.length hrev
  split_ifs with h0 hTW
  · exact ⟨fun _ => rfl, by norm_num, by norm_num⟩
  · refine ⟨fun hnil => absurd (by rw [hnil]; rfl) h0, ?_, ?_⟩
    · exact div_nonneg hws (le_of_lt hTW)
    · rw [div_le_one hTW]
      exact hwt
  · exact ⟨fun hnil => absurd (by rw [hnil]; rfl) h0, by norm_num, by norm_num⟩

/-- Witness for C5 at the empty record (effective finishes `[5,5,5]`). -/
theorem form_score_bounds_witness :
    (emptyHorse.recent_finishes.getD [5, 5, 5] = [] →
      calculate_form_score emptyHorse = 0.5) ∧
    0 ≤ calculate_form_score emptyHorse ∧ calculate_form_score emptyHorse ≤ 1 :=
  form_score_bounds emptyHorse (by decide)

/-- C5 counterexample: a single recent finish of `-1` gives form score
`11/10`, outside `[0, 1]`. -/
theorem form_score_above_one_counterexample :
    calculate_form_score negFinishHorse = 11 / 10 ∧ ¬ (11 / 10 : ℚ) ≤ 1 := by
  refine ⟨?_, by norm_num⟩
  norm_num [calculate_form_score, negFinishHorse, List.enum]

end HorseRacing

namespace HorseRacing

/-- C6: `calculate_class_score` always returns one of `{0.8, 1.0, 1.2}`,
chosen by comparing the class ordinals obtained from the `class_hierarchy`
table with default 2 (claiming) for unknown classes: `1.2` when the horse's
ordinal exceeds the race's, `1.0` when they are equal, `0.8` otherwise. -/
theorem class_score_trichotomy (h : HorseData) :
    (calculate_class_score h = 0.8 ∨ calculate_class_score h = 1.0 ∨
      calculate_class_score h = 1.2) ∧
    calculate_class_score h =
      (if (class_hierarchy (h.race_class.getD "claiming")).getD 2 <
          (class_hierarchy (h.horse_class.getD "claiming")).getD 2 then (1.2 : ℚ)
       else if (class_hierarchy (h.horse_class.getD "claiming")).getD 2 =
          (class_hierarchy (h.race_class.getD "claiming")).getD 2 then 1.0
       else 0.8) := by
  constructor
  · simp only [calculate_class_score]
    split_ifs <;> norm_num
  · rfl

/-- C7 counterexample: the record with every required field missing is
scored successfully from silent defaults (composite score 63.22) instead of
failing with a validation error. -/
theorem missing_fields_scored_counterexample :
    emptyHorse.beyer_speed_figure = none ∧ emptyHorse.recent_finishes = none ∧
    calculate_overall_score emptyHorse = some (3161 / 50) :=
  ⟨rfl, rfl, overall_emptyHorse⟩

/-- C7 (amended): a missing field never causes a failure and is never
distinguishable from its documented default: scoring any record equals
scoring the record with every missing field replaced by its default. -/
theorem overall_score_ignores_missing_fields (h : HorseData) :
    calculate_overall_score (fill_defaults h) = calculate_overall_score h := rfl

/-- C8 (amended): when the effective recent-figure list has at least three
entries and its third-from-last entry is 0, `calculate_speed_score` raises
(returns `none`, the model of Python's `ZeroDivisionError`); no neutral
fallback of 1.0 is applied. -/
theorem speed_score_raises_on_zero_denominator (h : HorseData)
    (hlen : 3 ≤ (h.recent_beyer_figures.getD [h.beyer_speed_figure.getD 70]).length)
    (hz : (h.recent_beyer_figures.getD [h.beyer_speed_figure.getD 70]).getD
        ((h.recent_beyer_figures.getD [h.beyer_speed_figure.getD 70]).length - 3) 0 = 0) :
    calculate_speed_score h = none := by
  simp only [calculate_speed_score]
  rw [if_pos hlen, if_pos hz]

/-- Witness for C8 at a record whose recent figures are `[0, 80, 80]`. -/
theorem speed_score_raises_on_zero_denominator_witness :
    3 ≤ (zeroDenomHorse.recent_beyer_figures.getD
        [zeroDenomHorse.beyer_speed_figure.getD 70]).length ∧
    calculate_speed_score zeroDenomHorse = none :=
  ⟨by decide, speed_score_raises_on_zero_denominator zeroDenomHorse (by decide) (by decide)⟩

/-- C8 counterexample: on recent figures `[0, 80, 80]` the speed score is
`none` (a raised `ZeroDivisionError`), not the value
`min (70 * 1 * 1 * 1) 120` that a neutral trend factor of 1.0 would give. -/
theorem speed_score_zero_denominator_counterexample :
    calculate_speed_score zeroDenomHorse = none ∧
    calculate_speed_score zeroDenomHorse ≠
      some (min ((70 : ℚ) * 1.0 * 1.0 * 1.0) 120) := by
  have hz : calculate_speed_score zeroDenomHorse = none := by
    norm_num [calculate_speed_score, zeroDenomHorse]
  exact ⟨hz, by rw [hz]; exact fun hc => Option.noConfusion hc⟩

end HorseRacing

namespace HorseRacing

/-- Every value stored in the `post_position_weights` table lies in
`[0.65, 1]`. -/
lemma post_position_weights_range (p : ℤ) (v : ℚ)
    (hv : post_position_weights p = some v) : 13 / 20 ≤ v ∧ v ≤ 1 := by
  unfold post_position_weights at hv
  split at hv <;>
    first
      | exact Option.noConfusion hv
      | (rw [Option.some_inj] at hv; subst hv; constructor <;> norm_num)

/-- Every value stored in the `large_field_weights` comprehension lies in
`[0.5, 1.25]`. -/
lemma large_field_weights_range (p : ℤ) (v : ℚ)
    (hv : large_field_weights p = some v) : 1 / 2 ≤ v ∧ v ≤ 5 / 4 := by
  unfold large_field_weights at hv
  split at hv
  · rw [Option.some_inj] at hv
    subst hv
    rename_i hp
    have hc : (1 : ℚ) ≤ ((p : ℤ) : ℚ) := by exact_mod_cast hp.1
    constructor
    · have := le_max_left (0.5 : ℚ) (1.0 - ((p : ℚ) - 6) * 0.05)
      linarith
    · exact max_le (by norm_num) (by linarith)
  · exact Option.noConfusion hv

/-- C10 (amended): `calculate_post_position_score` always lies in the
interval `[0.5, 1.25]`: it is `1.0` for field size at most 6, a table value
in `[0.65, 1]` or the default `0.90` for field size at most 10, and
`max(0.5, 1 - (post-6)*0.05)` (which reaches `1.25` at post 1) for posts
1-20 or the default `0.60` in larger fields. -/
theorem post_position_score_bounds (h : HorseData) :
    1 / 2 ≤ calculate_post_position_score h ∧
      calculate_post_position_score h ≤ 5 / 4 := by
  simp only [calculate_post_position_score]
  split_ifs with h1 h2
  · norm_num
  · rcases hp : post_position_weights (h.post_position.getD 5) with _ | v
    · simp only [Option.getD_none]
      norm_num
    · simp only [Option.getD_some]
      obtain ⟨hlo, hhi⟩ := post_position_weights_range _ _ hp
      constructor <;> linarith
  · rcases hp : large_field_weights (h.post_position.getD 5) with _ | v
    · simp only [Option.getD_none]
      norm_num
    · simp only [Option.getD_some]
      exact large_field_weights_range _ _ hp

/-- C10 counterexample: post 1 in an 11-horse field scores `1.25`,
above the claimed upper bound 1. -/
theorem post_position_score_above_one_counterexample :
    calculate_post_position_score widePostHorse = 5 / 4 ∧ ¬ (5 / 4 : ℚ) ≤ 1 := by
  refine ⟨?_, by norm_num⟩
  norm_num [calculate_post_position_score, widePostHorse, large_field_weights]

end HorseRacing

namespace HorseRacing

/-- C9: `predict_race` is deterministic — two invocations on identical
input lists produce identical output lists.  The model is a pure function
(the source has no randomness or clock access in the prediction path), so
equality of inputs transports to equality of outputs. -/
theorem predict_race_deterministic (hs₁ hs₂ : List HorseData) (he : hs₁ = hs₂) :
    predict_race hs₁ = predict_race hs₂ := by
  rw [he]

/-- Witness for C9 on a concrete two-horse race. -/
theorem predict_race_deterministic_witness :
    predict_race [emptyHorse, emptyHorse] = predict_race [emptyHorse, emptyHorse] :=
  predict_race_deterministic [emptyHorse, emptyHorse] [emptyHorse, emptyHorse] rfl

/-- One rounding to a tenth moves a real number by at most `1/20`. -/
lemma round1R_sub_le (x : ℝ) : |round1R x - x| ≤ 1 / 20 := by
  have h := abs_sub_round (10 * x)
  rw [abs_sub_comm] at h
  have heq : round1R x - x = (((round (10 * x) : ℤ) : ℝ) - 10 * x) / 10 := by
    unfold round1R; ring
  rw [heq, abs_div, show |(10 : ℝ)| = 10 by norm_num]
  linarith

/-- Rounding to a tenth preserves non-negativity. -/
lemma round1R_nonneg (x : ℝ) (hx : 0 ≤ x) : 0 ≤ round1R x := by
  unfold round1R
  apply div_nonneg _ (by norm_num : (0 : ℝ) ≤ 10)
  have : (0 : ℤ) ≤ round (10 * x) := by
    rw [round_eq]
    exact Int.floor_nonneg.mpr (by linarith)
  exact_mod_cast this

/-- Rounding every entry of a list to a tenth moves the sum by at most
`length / 20`. -/
lemma sum_map_round1R_close (l : List ℝ) :
    |(l.map round1R).sum - l.sum| ≤ (l.length : ℝ) * (1 / 20) := by
  induction l with
  | nil => simp
  | cons a t ih =>
    simp only [List.map_cons, List.sum_cons, List.length_cons]
    have h1 := round1R_sub_le a
    calc |round1R a + (t.map round1R).sum - (a + t.sum)|
        = |(round1R a - a) + ((t.map round1R).sum - t.sum)| := by ring_nf
      _ ≤ |round1R a - a| + |(t.map round1R).sum - t.sum| := abs_add _ _
      _ ≤ 1 / 20 + (t.length : ℝ) * (1 / 20) := add_le_add h1 ih
      _ = ((t.length : ℝ) + 1) * (1 / 20) := by ring
      _ = ((t.length + 1 : ℕ) : ℝ) * (1 / 20) := by push_cast; ring

/-- Proportional rescaling of a list by its own positive total sums to the
scale factor. -/
lemma sum_map_renorm (l : List ℝ) (c : ℝ) :
    (l.map fun x => x / c * 100).sum = l.sum / c * 100 := by
  induction l with
  | nil => simp
  | cons a t ih =>
    simp only [List.map_cons, List.sum_cons, ih]
    ring

/-- A successful `option_traverse` relates input and output pointwise. -/
lemma option_traverse_forall₂ {α β : Type _} {f : α → Option β} :
    ∀ {l : List α} {out : List β}, option_traverse f l = some out →
      List.Forall₂ (fun a b => f a = some b) l out := by
  intro l
  induction l with
  | nil =>
    intro out h
    simp only [option_traverse, Option.some_inj] at h
    subst h
    exact List.Forall₂.nil
  | cons a t ih =>
    intro out h
    simp only [option_traverse] at h
    rw [Option.bind_eq_some] at h
    obtain ⟨b, hb, h2⟩ := h
    rw [Option.map_eq_some'] at h2
    obtain ⟨bl, hbl, rfl⟩ := h2
    exact List.Forall₂.cons hb (ih hbl)

/-- The softmax value of any score is non-negative. -/
lemma softmax_prob_nonneg (S : List ℚ) (s : ℚ) : 0 ≤ softmax_prob S s := by
  unfold softmax_prob
  apply div_nonneg (Real.exp_pos _).le
  apply List.sum_nonneg
  intro x hx
  obtain ⟨t, _, rfl⟩ := List.mem_map.mp hx
  exact (Real.exp_pos _).le

/-- Over a nonempty score list, the softmax percentages sum to exactly 100. -/
lemma softmax_prob_total (S : List ℚ) (hS : S ≠ []) :
    (S.map fun s => softmax_prob S s * 100).sum = 100 := by
  unfold softmax_prob
  have hD : 0 < ((S.map fun s : ℚ => Real.exp ((s : ℝ) / 10)).sum) := by
    apply List.sum_pos
    · intro x hx
      obtain ⟨t, _, rfl⟩ := List.mem_map.mp hx
      exact Real.exp_pos _
    · exact fun hmap => hS (List.map_eq_nil_iff.mp hmap)
  rw [show (fun s : ℚ => Real.exp ((s : ℝ) / 10) /
        ((S.map fun t : ℚ => Real.exp ((t : ℝ) / 10)).sum) * 100) =
      fun s : ℚ => Real.exp ((s : ℝ) / 10) *
        (100 / ((S.map fun t : ℚ => Real.exp ((t : ℝ) / 10)).sum)) from
    funext fun s => by ring]
  rw [List.sum_map_mul_right]
  field_simp

end HorseRacing

namespace HorseRacing

/-- If the probability column is non-negative and its total is within
`length/20` below 100, then after `renormalize` the column sums to 100
within `length/20` (whether or not the positive-total branch is taken). -/
lemma renormalize_sum_close (l : List PredictionResult)
    (hpos : ∀ r ∈ l, 0 ≤ r.Win_Probability)
    (hclose : 100 - (l.map fun r => r.Win_Probability).sum ≤ (l.length : ℝ) * (1 / 20)) :
    |((renormalize l).map fun r => r.Win_Probability).sum - 100| ≤
      (l.length : ℝ) * (1 / 20) := by
  unfold renormalize
  by_cases htot : 0 < (l.map fun r => r.Win_Probability).sum
  · rw [if_pos htot]
    have hmaps : ((l.map fun r : PredictionResult =>
          { r with Win_Probability :=
              round1R (r.Win_Probability /
                (l.map fun t : PredictionResult => t.Win_Probability).sum * 100) }).map
            fun r => r.Win_Probability) =
        ((l.map fun r => r.Win_Probability).map
          fun w => w / (l.map fun r => r.Win_Probability).sum * 100).map round1R := by
      simp only [List.map_map]
      rfl
    rw [hmaps]
    have h1 := sum_map_round1R_close
      ((l.map fun r => r.Win_Probability).map
        fun w => w / (l.map fun r => r.Win_Probability).sum * 100)
    rw [sum_map_renorm, div_self (ne_of_gt htot), one_mul] at h1
    simpa using h1
  · rw [if_neg htot]
    have hnn : 0 ≤ (l.map fun r => r.Win_Probability).sum := by
      apply List.sum_nonneg
      intro x hx
      obtain ⟨r, hr, rfl⟩ := List.mem_map.mp hx
      exact hpos r hr
    have h0 : (l.map fun r => r.Win_Probability).sum ≤ 0 := not_lt.mp htot
    have habs : |(l.map fun r => r.Win_Probability).sum - 100| =
        100 - (l.map fun r => r.Win_Probability).sum := by
      rw [abs_of_nonpos (by linarith)]
      ring
    rw [habs]
    exact hclose

/-- Pointwise description of the rows produced by the `predict_race` loop:
with the full score list `S₀` fixed, each row's probability column is the
rounded softmax percentage of that horse's composite score. -/
lemma results_wp_eq {horses : List HorseData} {S₀ : List ℚ}
    (hS₀ : option_traverse calculate_overall_score horses = some S₀)
    {hs : List HorseData} {out : List PredictionResult} {S : List ℚ}
    (h1 : List.Forall₂ (fun a b => predict_result horses a = some b) hs out)
    (h2 : List.Forall₂ (fun a s => calculate_overall_score a = some s) hs S) :
    out.map (fun r => r.Win_Probability) =
      S.map fun s => round1R (softmax_prob S₀ s * 100) := by
  induction h1 generalizing S with
  | nil =>
    cases h2
    simp
  | @cons a r ta tr hab htail ih =>
    cases h2 with
    | cons hs2 htail2 =>
      rename_i s ts
      simp only [List.map_cons]
      have htl := ih htail2
      rw [htl]
      unfold predict_result at hab
      rw [Option.bind_eq_some] at hab
      obtain ⟨speed, hspeed, hmap⟩ := hab
      rw [Option.map_eq_some'] at hmap
      obtain ⟨prob, hprob, hr⟩ := hmap
      unfold score_to_probability at hprob
      rw [hS₀, Option.map_eq_some'] at hprob
      obtain ⟨S', hS', hprobeq⟩ := hprob
      rw [Option.some_inj] at hS'
      subst hS'
      have hseq : s = overall_from_speed a speed := by
        unfold calculate_overall_score at hs2
        rw [hspeed, Option.map_eq_some'] at hs2
        obtain ⟨sp, hsp, hov⟩ := hs2
        rw [Option.some_inj] at hsp
        subst hsp
        exact hov.symm
      subst hseq
      rw [← hr, ← hprobeq]

end HorseRacing

namespace HorseRacing

/-- C2 (amended): for every race of `N ≥ 2` horses on which `predict_race`
succeeds, the probabilities are the softmax values
`exp(s/10) / Σ exp(s/10)` of the composite scores, expressed as percentages
rounded to one decimal and proportionally re-normalized and re-rounded, and
the resulting `Win_Probability` column sums to 100.0 within `± 0.05·N`
(each of the `N` final roundings can contribute up to 0.05; the original
claim's fixed tolerance `± 0.1` fails for races of six or more horses). -/
theorem predict_race_prob_sum_close (horses : List HorseData)
    (rs : List PredictionResult) (hn : 2 ≤ horses.length)
    (hp : predict_race horses = some rs) :
    |(rs.map fun r => r.Win_Probability).sum - 100| ≤
      (horses.length : ℝ) * (1 / 20) := by
  unfold predict_race at hp
  rw [Option.map_eq_some'] at hp
  obtain ⟨results, htrav, hrs⟩ := hp
  subst hrs
  have hf := option_traverse_forall₂ htrav
  have hlen_res : results.length = horses.length := hf.length_eq.symm
  -- horses is nonempty, so the first row exhibits the traversed score list
  obtain ⟨h₀, hs', hhor⟩ : ∃ h₀ hs', horses = h₀ :: hs' := by
    cases horses with
    | nil => simp at hn
    | cons h₀ hs' => exact ⟨h₀, hs', rfl⟩
  obtain ⟨S, hS⟩ : ∃ S, option_traverse calculate_overall_score horses = some S := by
    rw [hhor] at hf
    cases hf with
    | cons hab _ =>
      unfold predict_result at hab
      rw [Option.bind_eq_some] at hab
      obtain ⟨speed, _, hmap⟩ := hab
      rw [Option.map_eq_some'] at hmap
      obtain ⟨prob, hprob, _⟩ := hmap
      unfold score_to_probability at hprob
      rw [Option.map_eq_some'] at hprob
      obtain ⟨S, hS, _⟩ := hprob
      rw [← hhor] at hS
      exact ⟨S, hS⟩
  have hfS := option_traverse_forall₂ hS
  have hlen_S : S.length = horses.length := hfS.length_eq.symm
  have hW := results_wp_eq hS hf hfS
  have hSne : S ≠ [] := by
    intro hnil
    rw [hnil] at hlen_S
    simp at hlen_S
    omega
  -- the sorted list is a permutation of the results
  have hperm : List.Perm (sort_by_score_desc results) results :=
    List.perm_insertionSort _ _
  have hlen_sorted : (sort_by_score_desc results).length = horses.length := by
    rw [hperm.length_eq, hlen_res]
  have hsum_sorted : ((sort_by_score_desc results).map fun r => r.Win_Probability).sum =
      (results.map fun r => r.Win_Probability).sum :=
    (hperm.map fun r => r.Win_Probability).sum_eq
  -- the pre-normalization column is the rounded softmax percentage column
  have hXround : (results.map fun r => r.Win_Probability) =
      (S.map fun s => softmax_prob S s * 100).map round1R := by
    rw [hW, List.map_map]
    rfl
  have hXsum : (S.map fun s => softmax_prob S s * 100).sum = 100 :=
    softmax_prob_total S hSne
  have hXlen : (S.map fun s => softmax_prob S s * 100).length = horses.length := by
    rw [List.length_map, hlen_S]
  -- total closeness of the pre-normalization column to 100
  have hpre := sum_map_round1R_close (S.map fun s => softmax_prob S s * 100)
  rw [hXsum, hXlen] at hpre
  -- apply the renormalization bound
  have happ := renormalize_sum_close (sort_by_score_desc results)
    (by
      intro r hr
      have hr' : r ∈ results := hperm.mem_iff.mp hr
      have : r.Win_Probability ∈ results.map fun t => t.Win_Probability :=
        List.mem_map_of_mem _ hr'
      rw [hW] at this
      obtain ⟨s, _, heq⟩ := List.mem_map.mp this
      rw [← heq]
      exact round1R_nonneg _ (mul_nonneg (softmax_prob_nonneg S s) (by norm_num)))
    (by
      rw [hsum_sorted, hXround, hlen_sorted]
      have := abs_le.mp hpre
      linarith [this.1])
  rw [hlen_sorted] at happ
  exact happ

end HorseRacing

namespace HorseRacing

/-- Sub-score evaluations on the empty record. -/
lemma form_emptyHorse : calculate_form_score emptyHorse = 1 / 2 := by
  norm_num [calculate_form_score, emptyHorse, List.enum]

lemma class_emptyHorse : calculate_class_score emptyHorse = 1 := by
  norm_num [calculate_class_score, emptyHorse, class_hierarchy]

lemma connection_emptyHorse : calculate_connection_score emptyHorse = (1 / 2, 29 / 50) := by
  norm_num [calculate_connection_score, emptyHorse, Prod.ext_iff]

lemma post_emptyHorse : calculate_post_position_score emptyHorse = 97 / 100 := by
  norm_num [calculate_post_position_score, emptyHorse, post_position_weights]

lemma overall_from_speed_emptyHorse : overall_from_speed emptyHorse 70 = 3161 / 50 := by
  norm_num [overall_from_speed, weights, form_emptyHorse, class_emptyHorse,
    connection_emptyHorse, post_emptyHorse]

/-- Characterization of `round1R` by bracketing the scaled argument. -/
lemma round1R_eq_of (x : ℝ) (z : ℤ) (h1 : (z : ℝ) ≤ 10 * x + 1 / 2)
    (h2 : 10 * x + 1 / 2 < (z : ℝ) + 1) : round1R x = (z : ℝ) / 10 := by
  unfold round1R
  rw [round_eq]
  have : ⌊10 * x + 1 / 2⌋ = z := Int.floor_eq_iff.mpr ⟨h1, h2⟩
  rw [this]

/-- Traversing a replicated input replicates the single output. -/
lemma option_traverse_replicate {α β : Type _} {f : α → Option β} {a : α} {b : β}
    (h : f a = some b) (n : ℕ) :
    option_traverse f (List.replicate n a) = some (List.replicate n b) := by
  induction n with
  | zero => rfl
  | succ n ih =>
    rw [List.replicate_succ, List.replicate_succ]
    simp only [option_traverse, h, ih, Option.some_bind, Option.map_some']

/-- Softmax over identical scores is the uniform probability. -/
lemma softmax_prob_replicate (n : ℕ) (hn : 0 < n) (s : ℚ) :
    softmax_prob (List.replicate n s) s = 1 / (n : ℝ) := by
  unfold softmax_prob
  rw [List.map_replicate, List.sum_replicate, nsmul_eq_mul]
  have he := Real.exp_ne_zero ((s : ℝ) / 10)
  have hn' : ((n : ℕ) : ℝ) ≠ 0 := Nat.cast_ne_zero.mpr (Nat.pos_iff_ne_zero.mp hn)
  field_simp
  ring

/-- Inserting an element into a run of copies of itself extends the run. -/
lemma orderedInsert_replicate {α : Type _} (r : α → α → Prop) [DecidableRel r]
    (a : α) (ha : r a a) (n : ℕ) :
    List.orderedInsert r a (List.replicate n a) = List.replicate (n + 1) a := by
  cases n with
  | zero => rfl
  | succ n =>
    rw [List.replicate_succ, List.orderedInsert, if_pos ha, ← List.replicate_succ,
      ← List.replicate_succ]

/-- Insertion sort fixes a constant list. -/
lemma insertionSort_replicate {α : Type _} (r : α → α → Prop) [DecidableRel r]
    (a : α) (ha : r a a) (n : ℕ) :
    List.insertionSort r (List.replicate n a) = List.replicate n a := by
  induction n with
  | zero => rfl
  | succ n ih =>
    rw [List.replicate_succ, List.insertionSort, ih, orderedInsert_replicate r a ha,
      List.replicate_succ]

end HorseRacing

namespace HorseRacing

/-- The probability assigned to one of `n` identical (empty) records. -/
lemma prob_empty_replicate (n : ℕ) (hn : 0 < n) :
    score_to_probability (3161 / 50) (List.replicate n emptyHorse) = some (1 / (n : ℝ)) := by
  unfold score_to_probability
  rw [option_traverse_replicate overall_emptyHorse n, Option.map_some',
    softmax_prob_replicate n hn]

/-- The row produced for the empty record, with a given probability column. -/
def rowEmpty (wp : ℝ) : PredictionResult :=
  { Horse := "Unknown", Score := 3161 / 50, Win_Probability := wp, Beyer_Figure := 70,
    Form_Score := 1 / 2, Class_Score := 1, Jockey_Score := 1 / 2, Trainer_Score := 29 / 50,
    Post_Advantage := 97 / 100 }

/-- The loop body on one of `n` identical empty records. -/
lemma predict_result_empty_replicate (n : ℕ) (hn : 0 < n) :
    predict_result (List.replicate n emptyHorse) emptyHorse =
      some (rowEmpty (round1R (1 / (n : ℝ) * 100))) := by
  unfold predict_result
  rw [speed_emptyHorse, Option.some_bind, overall_from_speed_emptyHorse,
    prob_empty_replicate n hn, Option.map_some', Option.some_inj]
  unfold rowEmpty
  simp only [form_emptyHorse, class_emptyHorse, connection_emptyHorse, post_emptyHorse,
    PredictionResult.mk.injEq]
  refine ⟨rfl, ?_⟩
  norm_num [round1, round2, round3, round_eq]

/-- Full evaluation of `predict_race` on six identical empty records: each
of the six probabilities is `1/6`, rounded to 16.7%, and the
re-normalization keeps each at 16.7%. -/
lemma predict_race_empty6 :
    predict_race (List.replicate 6 emptyHorse) =
      some (List.replicate 6 (rowEmpty (167 / 10))) := by
  unfold predict_race
  have h1 : round1R (1 / ((6 : ℕ) : ℝ) * 100) = 167 / 10 := by
    have h := round1R_eq_of (1 / ((6 : ℕ) : ℝ) * 100) 167 (by norm_num) (by norm_num)
    rw [h]; norm_num
  have h2 : predict_result (List.replicate 6 emptyHorse) emptyHorse =
      some (rowEmpty (167 / 10)) := by
    rw [predict_result_empty_replicate 6 (by norm_num), h1]
  rw [option_traverse_replicate h2 6, Option.map_some', Option.some_inj]
  have h3 : sort_by_score_desc (List.replicate 6 (rowEmpty (167 / 10))) =
      List.replicate 6 (rowEmpty (167 / 10)) := by
    unfold sort_by_score_desc
    exact insertionSort_replicate (fun a b => b.Score ≤ a.Score)
      (rowEmpty (167 / 10)) le_rfl 6
  rw [h3]
  unfold renormalize
  have hv : (rowEmpty (167 / 10)).Win_Probability = 167 / 10 := rfl
  rw [List.map_replicate, hv, List.sum_replicate, nsmul_eq_mul]
  rw [if_pos (by norm_num : (0 : ℝ) < ((6 : ℕ) : ℝ) * (167 / 10))]
  rw [List.map_replicate, hv]
  have h4 : round1R ((167 / 10 : ℝ) / (((6 : ℕ) : ℝ) * (167 / 10)) * 100) = 167 / 10 := by
    have h := round1R_eq_of ((167 / 10 : ℝ) / (((6 : ℕ) : ℝ) * (167 / 10)) * 100) 167
      (by norm_num) (by norm_num)
    rw [h]; norm_num
  rw [h4]
  rfl

/-- C2 counterexample: with six identical horses every softmax probability
is exactly `1/6`, each rounds to 16.7%, and the re-normalization leaves
16.7% per horse, so the `Win_Probability` column sums to 100.2 — not within
`± 0.1` of 100. -/
theorem predict_race_sum_tenth_counterexample :
    (predict_race (List.replicate 6 emptyHorse)).map
        (fun rs => (rs.map fun r => r.Win_Probability).sum) = some (501 / 5) ∧
    ¬ |(501 / 5 : ℝ) - 100| ≤ 1 / 10 := by
  constructor
  · rw [predict_race_empty6, Option.map_some', Option.some_inj,
      List.map_replicate, List.sum_replicate]
    have hv : (rowEmpty (167 / 10)).Win_Probability = 167 / 10 := rfl
    rw [hv, nsmul_eq_mul]
    norm_num
  · rw [abs_of_nonneg (by norm_num)]
    norm_num

/-- Full evaluation of `predict_race` on two identical empty records. -/
lemma predict_race_empty2 :
    predict_race (List.replicate 2 emptyHorse) =
      some (List.replicate 2 (rowEmpty 50)) := by
  unfold predict_race
  have h1 : round1R (1 / ((2 : ℕ) : ℝ) * 100) = 50 := by
    have h := round1R_eq_of (1 / ((2 : ℕ) : ℝ) * 100) 500 (by norm_num) (by norm_num)
    rw [h]; norm_num
  have h2 : predict_result (List.replicate 2 emptyHorse) emptyHorse =
      some (rowEmpty 50) := by
    rw [predict_result_empty_replicate 2 (by norm_num), h1]
  rw [option_traverse_replicate h2 2, Option.map_some', Option.some_inj]
  have h3 : sort_by_score_desc (List.replicate 2 (rowEmpty 50)) =
      List.replicate 2 (rowEmpty 50) := by
    unfold sort_by_score_desc
    exact insertionSort_replicate (fun a b => b.Score ≤ a.Score) (rowEmpty 50) le_rfl 2
  rw [h3]
  unfold renormalize
  have hv : (rowEmpty 50).Win_Probability = 50 := rfl
  rw [List.map_replicate, hv, List.sum_replicate, nsmul_eq_mul]
  rw [if_pos (by norm_num : (0 : ℝ) < ((2 : ℕ) : ℝ) * 50)]
  rw [List.map_replicate, hv]
  have h4 : round1R ((50 : ℝ) / (((2 : ℕ) : ℝ) * 50) * 100) = 50 := by
    have h := round1R_eq_of ((50 : ℝ) / (((2 : ℕ) : ℝ) * 50) * 100) 500
      (by norm_num) (by norm_num)
    rw [h]; norm_num
  rw [h4]
  rfl

/-- Witness for C2 (amended) on a concrete two-horse race: the column sums
to exactly 100, within `2 * 0.05`. -/
theorem predict_race_prob_sum_close_witness :
    2 ≤ (List.replicate 2 emptyHorse).length ∧
    |(((List.replicate 2 (rowEmpty 50)).map fun r => r.Win_Probability).sum - 100)| ≤
      ((List.replicate 2 emptyHorse).length : ℝ) * (1 / 20) :=
  ⟨by norm_num,
    predict_race_prob_sum_close (List.replicate 2 emptyHorse)
      (List.replicate 2 (rowEmpty 50)) (by norm_num) predict_race_empty2⟩

end HorseRacing
